import Mathlib

/-!
# Verification of the draftmachine reconciliation and draft-state core

A shallow embedding, in Lean, of the data-handling core of the
draftmachine repository (a fantasy-basketball auction draft tracker
written in TypeScript/JavaScript), together with theorems settling the
specification's claims about it.

Embedded components and their sources:

* the merge script (the Value Reconciler): `normalizeName`, the Yahoo
  lookup map, the ESPN/Yahoo merge loop and the final descending sort;
* the draft-sync API route (the Draft State Store / Budget Ledger):
  the POST (initialize teams), PUT (add pick), and GET (get state)
  handlers and their filesystem-cache record;
* the draft page's availability filter (the Availability Resolver).

Modelling conventions: JavaScript numbers are modelled as rationals
(the claims under study only involve exact decimal arithmetic);
JavaScript strings are Lean `String`s, or `List Char` where the code
manipulates them character-wise; absent JSON fields are `Option`;
`Map.set`/`Map.get` last-write-wins lookup is modelled directly.
-/

namespace DraftMachine

/-! ## Name Normalizer

From the merge script:
```js
function normalizeName(name) {
  return name
    .toLowerCase()
    .normalize('NFD')
    .replace(/[\x7bu0300}-\x7bu036f}]/g, '')
    .replace(/[^a-z\s]/g, '')
    .trim();
}
```
The Unicode NFD decomposition followed by the combining-mark strip is
the identity on ASCII strings, which is all the claims exercise; it is
modelled as the identity here. `Char.toLower` models the ASCII action
of `String.prototype.toLowerCase`.
-/

/-- A character survives the `replace(/[^a-z\s]/g, '')` step iff it is a
lowercase ASCII letter or whitespace. -/
def keepChar (c : Char) : Bool :=
  ('a' ≤ c && c ≤ 'z') || c.isWhitespace

/-- Strip leading and trailing whitespace: `String.prototype.trim`. -/
def trimWs (l : List Char) : List Char :=
  ((l.dropWhile Char.isWhitespace).reverse.dropWhile Char.isWhitespace).reverse

/-- `normalizeName` from the merge script (see the section comment). -/
def normalizeName (s : List Char) : List Char :=
  trimWs ((s.map Char.toLower).filter keepChar)

/-! ## Value Reconciler data model

The ESPN-sourced records of `draft-data.json` and the Yahoo-sourced
records of `yahoo-draft-data.json`, and the merged record pushed by the
merge loop (`{...player, avgAuctionValue, espnAuctionValue,
yahooAuctionValue}`).
-/

structure EspnPlayer where
  name : List Char
  team : List Char
  position : List Char
  avgAuctionValue : ℚ
  headshotUrl : List Char
deriving DecidableEq

structure YahooPlayer where
  name : List Char
  yahooAuctionValue : ℚ
deriving DecidableEq

structure MergedPlayer where
  name : List Char
  team : List Char
  position : List Char
  headshotUrl : List Char
  avgAuctionValue : ℚ
  espnAuctionValue : ℚ
  yahooAuctionValue : Option ℚ
deriving DecidableEq

/-- The Yahoo lookup map: `yahooMap.set(normalizeName(player.name),
player.yahooAuctionValue)` over the whole list, then `yahooMap.get(n)`.
`Map.set` overwrites, so the value retrieved is that of the *last*
record whose normalized name equals the key; the recursion below
prefers the result found in the tail. -/
def yahooLookup : List YahooPlayer → List Char → Option ℚ
  | [], _ => none
  | q :: qs, n =>
    match yahooLookup qs n with
    | some v => some v
    | none => if normalizeName q.name = n then some q.yahooAuctionValue else none

/-- `Math.round(x * 10) / 10`: round to one decimal place, halves
rounding up (`Math.round(z) = ⌊z + 1/2⌋`). -/
def round10 (x : ℚ) : ℚ :=
  (Int.floor (x * 10 + 1 / 2) : ℚ) / 10

/-- The body of the merge loop for one ESPN record: look the player up
in the Yahoo map; if found, average the two values and retain both; if
not found, keep the ESPN value and record a null Yahoo value. -/
def mergeOne (s : List YahooPlayer) (p : EspnPlayer) : MergedPlayer :=
  match yahooLookup s (normalizeName p.name) with
  | some v =>
    { name := p.name, team := p.team, position := p.position,
      headshotUrl := p.headshotUrl,
      avgAuctionValue := round10 ((p.avgAuctionValue + v) / 2),
      espnAuctionValue := p.avgAuctionValue,
      yahooAuctionValue := some v }
  | none =>
    { name := p.name, team := p.team, position := p.position,
      headshotUrl := p.headshotUrl,
      avgAuctionValue := p.avgAuctionValue,
      espnAuctionValue := p.avgAuctionValue,
      yahooAuctionValue := none }

/-- The merge loop `draftData.forEach(...)`: one output record is pushed
per ESPN record, in ESPN order. -/
def mergePlayers (p : List EspnPlayer) (s : List YahooPlayer) : List MergedPlayer :=
  p.map (mergeOne s)

/-- Stable insertion into a non-increasing list: the element being
inserted came later in the input, so it passes every element of
strictly greater value and stops at the first element of smaller or
equal value, landing after all elements equal to it. This realizes the
(ES2019-stable) `mergedData.sort((a, b) => b.avgAuctionValue -
a.avgAuctionValue)`. -/
def insertDesc (x : MergedPlayer) : List MergedPlayer → List MergedPlayer
  | [] => [x]
  | y :: ys =>
    if x.avgAuctionValue < y.avgAuctionValue then y :: insertDesc x ys
    else x :: y :: ys

/-- Stable descending sort by `avgAuctionValue` (see `insertDesc`). -/
def sortDesc : List MergedPlayer → List MergedPlayer
  | [] => []
  | x :: xs => insertDesc x (sortDesc xs)

/-- The whole merge script: merge ESPN against the Yahoo lookup map,
then sort by `avgAuctionValue` descending. -/
def reconcile (p : List EspnPlayer) (s : List YahooPlayer) : List MergedPlayer :=
  sortDesc (mergePlayers p s)

/-! ## Availability Resolver

From the draft page:
```js
const availablePlayers = allPlayers.filter(
  p => !draftData.picks.some(pick =>
    pick.playerName.toLowerCase().includes(p.name.toLowerCase()) ||
    p.name.toLowerCase().includes(pick.playerName.toLowerCase())
  )
)
```
Only the `playerName` field of a pick participates in the filter.
`a.includes(b)` holds iff `b` occurs contiguously inside `a`.
-/

/-- `String.prototype.toLowerCase`, character-wise (ASCII action). -/
def lowerChars (s : List Char) : List Char := s.map Char.toLower

/-- A drafted pick as seen by the availability filter. -/
structure UIPick where
  playerName : List Char
deriving DecidableEq

/-- The availability filter of the draft page (see the section
comment): a catalog player is kept iff no pick matches it under
bidirectional lowercase substring containment. -/
def availablePlayers (allPlayers : List MergedPlayer) (picks : List UIPick) :
    List MergedPlayer :=
  allPlayers.filter (fun p =>
    ! picks.any (fun pick =>
        decide (lowerChars p.name <:+: lowerChars pick.playerName) ||
        decide (lowerChars pick.playerName <:+: lowerChars p.name)))

/-! ## Draft State Store (the draft-sync API route)

The route keeps one JSON record per league id:
`{picks, teams, syncedAt, totalPicks, isComplete, myTeamBudget}`.
The `syncedAt` wall-clock timestamp is not modelled (no claim concerns
it). The POST handler initializes the teams, the PUT handler appends a
pick and runs the budget deduction, the GET handler reports the state,
the DELETE handler removes the record.
-/

/-- A configured team: `{name, budget, isMyTeam}`. -/
structure DraftTeam where
  name : String
  budget : ℚ
  isMyTeam : Bool
deriving DecidableEq

/-- A stored pick, as pushed by the PUT handler. -/
structure SyncedPick where
  playerName : String
  teamName : String
  pickNumber : ℕ
  bidAmount : ℚ
  isMyPick : Bool
  draftedByTeam : Option String
deriving DecidableEq

/-- The cached session record (minus the unmodelled timestamp). -/
structure DraftCache where
  picks : List SyncedPick
  teams : List DraftTeam
  totalPicks : ℕ
  isComplete : Bool
  myTeamBudget : ℚ
deriving DecidableEq

/-- The body of a PUT (add-pick) request. A `none` field models an
absent JSON field; `isMyPick` defaults to `false` in the handler. -/
structure AddPickRequest where
  playerName : Option String
  bidAmount : Option ℚ
  isMyPick : Bool
  draftedByTeam : Option String
deriving DecidableEq

/-- JavaScript truthiness of an optional string: `undefined` and the
empty string are falsy. -/
def jsTruthyStr (o : Option String) : Bool :=
  match o with
  | none => false
  | some s => decide (s ≠ "")

/-- The default record the PUT handler builds when no cache file
exists: `{picks: [], teams: [], ..., totalPicks: 130, isComplete:
false, myTeamBudget: 200}`. -/
def defaultCache : DraftCache :=
  { picks := [], teams := [], totalPicks := 130, isComplete := false,
    myTeamBudget := 200 }

/-- One team as stored by the POST handler: `{name: team.name, budget:
team.budget || 200, isMyTeam: team.isMyTeam || false}`. A zero budget
is falsy in JavaScript, hence the `if`. -/
def initTeam (t : DraftTeam) : DraftTeam :=
  { name := t.name,
    budget := if t.budget = 0 then 200 else t.budget,
    isMyTeam := t.isMyTeam }

/-- The POST handler (initialize teams): zero picks, the mapped team
list, `totalPicks: 130` (a hardcoded constant, not derived from the
team count), `isComplete: false`, `myTeamBudget: 200`. -/
def initDraft (ts : List DraftTeam) : DraftCache :=
  { picks := [], teams := ts.map initTeam, totalPicks := 130,
    isComplete := false, myTeamBudget := 200 }

/-- The budget deduction of the PUT handler:
`teams.findIndex(t => t.name === draftedByTeam)` followed by an
in-place `budget -= bidAmount` at the found index. Returns the updated
list and the team found (pre-deduction), `none` if absent. -/
def deduct (dbt : String) (bid : ℚ) : List DraftTeam → List DraftTeam × Option DraftTeam
  | [] => ([], none)
  | t :: ts =>
    if t.name = dbt then ({ t with budget := t.budget - bid } :: ts, some t)
    else
      let r := deduct dbt bid ts
      (t :: r.1, r.2)

/-- The budget-mutation phase of the PUT handler: if `draftedByTeam` is
truthy and teams are configured, deduct from the named team (if found;
an unknown name silently changes nothing) and mirror the deduction in
`myTeamBudget` when the found team is the user's; otherwise, in legacy
mode, deduct from `myTeamBudget` alone when `isMyPick`. -/
def applyBudget (data : DraftCache) (req : AddPickRequest) (bid : ℚ) : DraftCache :=
  if jsTruthyStr req.draftedByTeam && !data.teams.isEmpty then
    match deduct (req.draftedByTeam.getD "") bid data.teams with
    | (ts', some t) =>
      { data with
        teams := ts',
        myTeamBudget :=
          if t.isMyTeam then data.myTeamBudget - bid else data.myTeamBudget }
    | (_, none) => data
  else if req.isMyPick then { data with myTeamBudget := data.myTeamBudget - bid }
  else data

/-- The pick object the PUT handler pushes, built after the budget
mutation (which leaves the pick list untouched):
`pickNumber = picks.length + 1`. -/
def newPickOf (data1 : DraftCache) (req : AddPickRequest) (pn : String) (bid : ℚ) :
    SyncedPick :=
  { playerName := pn,
    teamName := if req.isMyPick then "My Team" else "Manual",
    pickNumber := data1.picks.length + 1,
    bidAmount := bid,
    isMyPick := req.isMyPick,
    draftedByTeam :=
      if jsTruthyStr req.draftedByTeam then req.draftedByTeam
      else if req.isMyPick then some "My Team" else none }

/-- The route's only client error: HTTP 400
`'playerName and bidAmount are required'`. -/
inductive ApiError where
  | missingFields
deriving DecidableEq

/-- The PUT handler (add a single pick). The *only* rejection is the
missing-field check `if (!playerName || bidAmount === undefined)`;
otherwise the budget mutation runs and the new pick is appended. -/
def addPick (cur : Option DraftCache) (req : AddPickRequest) :
    Except ApiError (DraftCache × SyncedPick) :=
  match req.playerName, req.bidAmount with
  | some pn, some bid =>
    if pn = "" then Except.error ApiError.missingFields
    else
      let data1 := applyBudget (cur.getD defaultCache) req bid
      let np := newPickOf data1 req pn bid
      Except.ok ({ data1 with picks := data1.picks ++ [np] }, np)
  | _, _ => Except.error ApiError.missingFields

/-- Run one PUT request against a session, keeping the stored state
(an erroring request stores nothing). -/
def stepPick (s : DraftCache) (r : AddPickRequest) : DraftCache :=
  match addPick (some s) r with
  | Except.ok (s', _) => s'
  | Except.error _ => s

/-- Run a sequence of PUT requests against a session. -/
def runPicks (s : DraftCache) (reqs : List AddPickRequest) : DraftCache :=
  reqs.foldl stepPick s

/-- A pick as reported by the GET handler. -/
structure TransformedPick where
  playerId : ℕ
  playerName : String
  teamId : ℕ
  pickNumber : ℕ
  round : ℕ
  bidAmount : ℚ
  isMyPick : Bool
  draftedByTeam : Option String
deriving DecidableEq

/-- The GET handler's per-pick transform at array index `idx`:
`round: Math.floor(index / 10) + 1` — the divisor is the constant 10,
not the configured team count — and `pickNumber: pick.pickNumber ||
index + 1` (zero is falsy). -/
def transformOne (idx : ℕ) (pick : SyncedPick) : TransformedPick :=
  { playerId := idx + 1,
    playerName := pick.playerName,
    teamId := 0,
    pickNumber := if pick.pickNumber = 0 then idx + 1 else pick.pickNumber,
    round := idx / 10 + 1,
    bidAmount := pick.bidAmount,
    isMyPick := pick.isMyPick,
    draftedByTeam := pick.draftedByTeam }

/-- `cachedData.picks.map((pick, index) => ...)`, carrying the running
index. -/
def transformPicks : List SyncedPick → ℕ → List TransformedPick
  | [], _ => []
  | p :: ps, idx => transformOne idx p :: transformPicks ps (idx + 1)

/-- The GET handler's response body. -/
structure StateResponse where
  picks : List TransformedPick
  teams : List DraftTeam
  currentPick : ℕ
  totalPicks : ℕ
  isComplete : Bool
  synced : Bool
  myTeamBudget : ℚ
  teamsConfigured : Bool
deriving DecidableEq

/-- The GET handler: a missing cache file yields the fixed default
response (its JSON omits `teamsConfigured`, an absent — falsy —
field); an existing record is reported with transformed picks. -/
def getState : Option DraftCache → StateResponse
  | none =>
    { picks := [], teams := [], currentPick := 1, totalPicks := 130,
      isComplete := false, synced := false, myTeamBudget := 200,
      teamsConfigured := false }
  | some d =>
    { picks := transformPicks d.picks 0,
      teams := d.teams,
      currentPick := (transformPicks d.picks 0).length + 1,
      totalPicks := d.totalPicks,
      isComplete := d.isComplete,
      synced := true,
      myTeamBudget := d.myTeamBudget,
      teamsConfigured := !d.teams.isEmpty }

/-- Sum of the bid amounts of the picks drafted by the team named `n`. -/
def sumBids (picks : List SyncedPick) (n : String) : ℚ :=
  ((picks.filter fun p => decide (p.draftedByTeam = some n)).map
    fun p => p.bidAmount).sum

/-! ## Concrete sample data

Fixed inputs used by the counterexamples and witnesses below.
-/

/-- ESPN record "A" valued 80. -/
def eA1 : EspnPlayer :=
  { name := "A".data, team := "T".data, position := "G".data,
    avgAuctionValue := 80, headshotUrl := "".data }

/-- A second ESPN record with the same name "A", valued 60. -/
def eA2 : EspnPlayer :=
  { name := "A".data, team := "T".data, position := "G".data,
    avgAuctionValue := 60, headshotUrl := "".data }

/-- Yahoo record "A" valued 60. -/
def yA1 : YahooPlayer := { name := "A".data, yahooAuctionValue := 60 }

/-- The merged record for `eA1` against `[yA1]`. -/
def recA1 : MergedPlayer := mergeOne [yA1] eA1

/-- Catalog entry "LeBron James". -/
def lebronJames : MergedPlayer :=
  { name := "LeBron James".data, team := "LAL".data, position := "SF".data,
    headshotUrl := "".data, avgAuctionValue := 60, espnAuctionValue := 60,
    yahooAuctionValue := none }

/-- A drafted pick recorded under the partial name "LeBron". -/
def lebronPick : UIPick := ⟨ "LeBron".data ⟩

/-- A configured team "A" with the default budget. -/
def tAc : DraftTeam := { name := "A", budget := 200, isMyTeam := true }

/-- A configured team "B" with the default budget. -/
def tBc : DraftTeam := { name := "B", budget := 200, isMyTeam := false }

/-- An add-pick request with a negative bid for a team name that is not
configured anywhere. -/
def rBad : AddPickRequest :=
  { playerName := some "Nobody", bidAmount := some (-5), isMyPick := false,
    draftedByTeam := some "Z" }

/-- The pick the PUT handler stores for `rBad`. -/
def pkBad : SyncedPick :=
  { playerName := "Nobody", teamName := "Manual", pickNumber := 1,
    bidAmount := -5, isMyPick := false, draftedByTeam := some "Z" }

/-- A well-formed add-pick request for team "A". -/
def rqA (b : ℚ) : AddPickRequest :=
  { playerName := some "PA", bidAmount := some b, isMyPick := true,
    draftedByTeam := some "A" }

/-- A well-formed add-pick request for team "B". -/
def rqB (b : ℚ) : AddPickRequest :=
  { playerName := some "PB", bidAmount := some b, isMyPick := false,
    draftedByTeam := some "B" }

/-- A session holding only team "B" at the default budget. -/
def sesB : DraftCache :=
  { picks := [], teams := [tBc], totalPicks := 130, isComplete := false,
    myTeamBudget := 200 }

/-! ### Reconciler helper lemmas -/

theorem insertDesc_perm (x : MergedPlayer) (l : List MergedPlayer) :
    List.Perm (insertDesc x l) (x :: l) := by
  induction l with
  | nil => simp [insertDesc]
  | cons y ys ih =>
    rw [insertDesc]
    by_cases hc : x.avgAuctionValue < y.avgAuctionValue
    · rw [if_pos hc]
      exact (ih.cons y).trans (List.Perm.swap x y ys)
    · rw [if_neg hc]

theorem sortDesc_perm (l : List MergedPlayer) : List.Perm (sortDesc l) l := by
  induction l with
  | nil => simp [sortDesc]
  | cons x xs ih =>
    rw [sortDesc]
    exact (insertDesc_perm x (sortDesc xs)).trans (ih.cons x)

theorem insertDesc_sorted {x : MergedPlayer} {l : List MergedPlayer}
    (h : l.Pairwise (fun a b => b.avgAuctionValue ≤ a.avgAuctionValue)) :
    (insertDesc x l).Pairwise (fun a b => b.avgAuctionValue ≤ a.avgAuctionValue) := by
  induction l with
  | nil => simp [insertDesc]
  | cons y ys ih =>
    rw [List.pairwise_cons] at h
    obtain ⟨hy, hys⟩ := h
    rw [insertDesc]
    by_cases hc : x.avgAuctionValue < y.avgAuctionValue
    · rw [if_pos hc, List.pairwise_cons]
      refine ⟨?_, ih hys⟩
      intro z hz
      have hz' : z = x ∨ z ∈ ys := by
        have := (insertDesc_perm x ys).mem_iff.mp hz
        simpa using this
      rcases hz' with rfl | hz'
      · exact le_of_lt hc
      · exact hy z hz'
    · rw [if_neg hc, List.pairwise_cons]
      push_neg at hc
      refine ⟨?_, List.pairwise_cons.mpr ⟨hy, hys⟩⟩
      intro z hz
      rcases List.mem_cons.mp hz with rfl | hz'
      · exact hc
      · exact (hy z hz').trans hc

theorem sortDesc_sorted (l : List MergedPlayer) :
    (sortDesc l).Pairwise (fun a b => b.avgAuctionValue ≤ a.avgAuctionValue) := by
  induction l with
  | nil => simp [sortDesc]
  | cons x xs ih => exact insertDesc_sorted ih

theorem filter_insertDesc (v : ℚ) (x : MergedPlayer) (l : List MergedPlayer) :
    (insertDesc x l).filter (fun r => decide (r.avgAuctionValue = v)) =
      if x.avgAuctionValue = v
      then x :: l.filter (fun r => decide (r.avgAuctionValue = v))
      else l.filter (fun r => decide (r.avgAuctionValue = v)) := by
  induction l with
  | nil =>
    by_cases hx : x.avgAuctionValue = v <;> simp [insertDesc, List.filter, hx]
  | cons y ys ih =>
    rw [insertDesc]
    by_cases hc : x.avgAuctionValue < y.avgAuctionValue
    · rw [if_pos hc]
      by_cases hx : x.avgAuctionValue = v
      · have hy : ¬ y.avgAuctionValue = v := by
          intro hyv
          rw [hx] at hc
          rw [hyv] at hc
          exact lt_irrefl v hc
        simp [List.filter_cons, hx, hy, ih]
      · by_cases hy : y.avgAuctionValue = v <;>
          simp [List.filter_cons, hx, hy, ih]
    · rw [if_neg hc]
      by_cases hx : x.avgAuctionValue = v <;>
        by_cases hy : y.avgAuctionValue = v <;>
          simp [List.filter_cons, hx, hy]

theorem filter_sortDesc (v : ℚ) (l : List MergedPlayer) :
    (sortDesc l).filter (fun r => decide (r.avgAuctionValue = v)) =
      l.filter (fun r => decide (r.avgAuctionValue = v)) := by
  induction l with
  | nil => simp [sortDesc]
  | cons x xs ih =>
    rw [sortDesc, filter_insertDesc]
    by_cases hx : x.avgAuctionValue = v <;> simp [List.filter_cons, hx, ih]

theorem mergeOne_name (s : List YahooPlayer) (p : EspnPlayer) :
    (mergeOne s p).name = p.name := by
  rw [mergeOne]
  cases yahooLookup s (normalizeName p.name) <;> rfl

theorem yahooLookup_eq_none {s : List YahooPlayer} {n : List Char}
    (h : ∀ q ∈ s, normalizeName q.name ≠ n) : yahooLookup s n = none := by
  induction s with
  | nil => rfl
  | cons q qs ih =>
    rw [yahooLookup, ih (fun r hr => h r (List.mem_cons_of_mem q hr))]
    simp [h q (List.mem_cons_self q qs)]

theorem yahooLookup_eq_some {s : List YahooPlayer} {q : YahooPlayer} {n : List Char}
    (hnd : (s.map fun r => normalizeName r.name).Nodup)
    (hq : q ∈ s) (hn : normalizeName q.name = n) :
    yahooLookup s n = some q.yahooAuctionValue := by
  induction s with
  | nil => cases hq
  | cons r rs ih =>
    rw [List.map_cons, List.nodup_cons] at hnd
    obtain ⟨hr, hrs⟩ := hnd
    rcases List.mem_cons.mp hq with rfl | hq'
    · have hnone : yahooLookup rs n = none := by
        apply yahooLookup_eq_none
        intro q' hq' hcon
        exact hr (by rw [hn, ← hcon]; exact List.mem_map_of_mem _ hq')
      rw [yahooLookup, hnone]
      simp [hn]
    · rw [yahooLookup, ih hrs hq']


/-! ## Claims about the Value Reconciler -/

/-- C3: for every primary record, if some secondary record has the same
normalized name then the corresponding output record's `averageValue`
is the two-source mean rounded to one decimal place with both source
values retained; if no secondary record matches, the output record
keeps the primary value and records a null secondary value. (The
secondary list is assumed free of duplicate normalized names, so "the"
matching record is unambiguous; the output record is a member of the
reconciled output.) -/
theorem reconcile_record_values
    (p : List EspnPlayer) (s : List YahooPlayer)
    (hs : (s.map fun q => normalizeName q.name).Nodup)
    (i : ℕ) (pl : EspnPlayer) (rec : MergedPlayer)
    (hpl : p[i]? = some pl)
    (hrec : (mergePlayers p s)[i]? = some rec) :
    (∀ q ∈ s, normalizeName q.name = normalizeName pl.name →
      rec.avgAuctionValue = round10 ((pl.avgAuctionValue + q.yahooAuctionValue) / 2) ∧
      rec.espnAuctionValue = pl.avgAuctionValue ∧
      rec.yahooAuctionValue = some q.yahooAuctionValue) ∧
    ((∀ q ∈ s, normalizeName q.name ≠ normalizeName pl.name) →
      rec.avgAuctionValue = pl.avgAuctionValue ∧
      rec.espnAuctionValue = pl.avgAuctionValue ∧
      rec.yahooAuctionValue = none) ∧
    rec ∈ reconcile p s := by
  have hrec' : rec = mergeOne s pl := by
    rw [mergePlayers, List.getElem?_map, hpl] at hrec
    exact (Option.some.inj hrec).symm
  refine ⟨?_, ?_, ?_⟩
  · intro q hq hqn
    rw [hrec']
    simp [mergeOne, yahooLookup_eq_some hs hq hqn]
  · intro hnone
    rw [hrec']
    simp [mergeOne, yahooLookup_eq_none hnone]
  · have hmem : rec ∈ mergePlayers p s := List.mem_iff_getElem?.mpr ⟨i, hrec⟩
    rw [reconcile]
    exact ((sortDesc_perm (mergePlayers p s)).mem_iff).mpr hmem

/-- Witness for C3 at primary `[eA1]` (value 80), secondary `[yA1]`
(value 60): the merged record averages to 70.0 and retains 80/60. -/
theorem reconcile_record_values_witness :
    recA1.avgAuctionValue = 70 ∧
    recA1.espnAuctionValue = 80 ∧
    recA1.yahooAuctionValue = some 60 := by
  have h := reconcile_record_values [eA1] [yA1] (by decide) 0 eA1 recA1
    (by decide) (by rw [show recA1 = mergeOne [yA1] eA1 from rfl]; rfl)
  obtain ⟨havg, hespn, hyahoo⟩ := h.1 yA1 (by decide) (by decide)
  refine ⟨?_, by simpa [eA1] using hespn, by simpa [yA1] using hyahoo⟩
  rw [havg]
  unfold round10
  norm_num [eA1, yA1]

/-- C6 counterexample: with the duplicate primary list `[eA1, eA2]`
(both normalize to "a") and an empty secondary list, the reconciled
output contains two records with the same normalized name — the merge
loop pushes one output record per primary record and never collapses
duplicate primary names. -/
theorem reconcile_duplicate_names_cex :
    ¬ (((reconcile [eA1, eA2] []).map fun r => normalizeName r.name).Nodup) := by
  decide

/-- C6 amended: the reconciled output has exactly one record per
normalized name *provided the primary input does*; duplicates in the
secondary source collapse in the lookup map, but each primary record —
duplicate or not — yields its own output record. -/
theorem reconcile_nodup_of_primary_nodup
    (p : List EspnPlayer) (s : List YahooPlayer)
    (h : (p.map fun pl => normalizeName pl.name).Nodup) :
    ((reconcile p s).map fun r => normalizeName r.name).Nodup := by
  have hperm :
      List.Perm ((reconcile p s).map fun r => normalizeName r.name)
        ((mergePlayers p s).map fun r => normalizeName r.name) :=
    (sortDesc_perm (mergePlayers p s)).map _
  rw [hperm.nodup_iff, mergePlayers, List.map_map]
  have hnames :
      (p.map ((fun r => normalizeName r.name) ∘ mergeOne s)) =
        p.map fun pl => normalizeName pl.name := by
    apply List.map_congr_left
    intro pl _
    simp [Function.comp, mergeOne_name]
  rw [hnames]
  exact h

/-- Witness for C6 amended at primary `[eA1]`, secondary `[yA1]`. -/
theorem reconcile_nodup_of_primary_nodup_witness :
    ((reconcile [eA1] [yA1]).map fun r => normalizeName r.name).Nodup :=
  reconcile_nodup_of_primary_nodup [eA1] [yA1] (by decide)

/-- C8: the reconciled output is sorted non-increasing by
`averageValue`, and for every value `v` the records of value `v` appear
in the same relative order as in the merge phase — which produces one
record per primary record in primary input order (stable ties). -/
theorem reconcile_sorted_and_stable (p : List EspnPlayer) (s : List YahooPlayer) :
    (reconcile p s).Pairwise (fun a b => b.avgAuctionValue ≤ a.avgAuctionValue) ∧
    ∀ v : ℚ,
      (reconcile p s).filter (fun r => decide (r.avgAuctionValue = v)) =
        (p.map (mergeOne s)).filter (fun r => decide (r.avgAuctionValue = v)) := by
  refine ⟨sortDesc_sorted _, fun v => ?_⟩
  rw [reconcile]
  exact filter_sortDesc v (mergePlayers p s)

/-! ## Claim about the Availability Resolver -/

/-- C7: a catalog player is excluded by the availability filter iff
some pick's name and the player's name match under bidirectional
substring containment of the lowercased strings — not exact equality;
in particular, catalog `["LeBron James"]` with picks `["LeBron"]`
excludes the player. -/
theorem available_iff_no_substring_match :
    (∀ (c : List MergedPlayer) (ps : List UIPick) (p : MergedPlayer),
      p ∈ availablePlayers c ps ↔
        p ∈ c ∧ ¬ ∃ pk ∈ ps,
          (lowerChars p.name <:+: lowerChars pk.playerName ∨
           lowerChars pk.playerName <:+: lowerChars p.name)) ∧
    availablePlayers [lebronJames] [lebronPick] = [] := by
  constructor
  · intro c ps p
    rw [availablePlayers, List.mem_filter]
    simp
  · decide

/-! ### Draft State Store helper lemmas -/

theorem applyBudget_picks (d : DraftCache) (r : AddPickRequest) (b : ℚ) :
    (applyBudget d r b).picks = d.picks := by
  rw [applyBudget]
  split
  · split
    · rfl
    · rfl
  · split <;> rfl

theorem addPick_ok_inv (cur : Option DraftCache) (r : AddPickRequest)
    (s' : DraftCache) (pk : SyncedPick)
    (h : addPick cur r = Except.ok (s', pk)) :
    pk.pickNumber = (cur.getD defaultCache).picks.length + 1 ∧
    s'.picks = (cur.getD defaultCache).picks ++ [pk] := by
  rw [addPick] at h
  cases hpn : r.playerName with
  | none => rw [hpn] at h; cases h
  | some pn =>
    cases hb : r.bidAmount with
    | none => rw [hpn, hb] at h; cases h
    | some b =>
      rw [hpn, hb] at h
      dsimp only at h
      by_cases he : pn = ""
      · rw [if_pos he] at h; cases h
      · rw [if_neg he] at h
        simp only [Except.ok.injEq, Prod.mk.injEq] at h
        obtain ⟨hs', hpk⟩ := h
        constructor
        · rw [← hpk, newPickOf]
          simp [applyBudget_picks]
        · rw [← hs', ← hpk]
          simp [applyBudget_picks]

theorem addPick_eq_ok (s : DraftCache) (r : AddPickRequest) (pn : String) (b : ℚ)
    (h1 : r.playerName = some pn) (h2 : pn ≠ "") (h3 : r.bidAmount = some b) :
    addPick (some s) r =
      Except.ok
        ({ applyBudget s r b with
            picks := s.picks ++ [newPickOf (applyBudget s r b) r pn b] },
          newPickOf (applyBudget s r b) r pn b) := by
  rw [addPick, h1, h3]
  dsimp only
  rw [if_neg h2]
  simp [applyBudget_picks]

theorem stepPick_picks (s : DraftCache) (r : AddPickRequest) (pn : String) (b : ℚ)
    (h1 : r.playerName = some pn) (h2 : pn ≠ "") (h3 : r.bidAmount = some b) :
    (stepPick s r).picks = s.picks ++ [newPickOf (applyBudget s r b) r pn b] := by
  rw [stepPick, addPick_eq_ok s r pn b h1 h2 h3]

theorem runPicks_pickNumbers (reqs : List AddPickRequest) :
    ∀ s : DraftCache,
      (∀ r ∈ reqs, (∃ pn, r.playerName = some pn ∧ pn ≠ "") ∧ r.bidAmount ≠ none) →
      (runPicks s reqs).picks.map (fun p => p.pickNumber) =
        s.picks.map (fun p => p.pickNumber) ++
          List.range' (s.picks.length + 1) reqs.length := by
  induction reqs with
  | nil => intro s _; simp [runPicks]
  | cons r rs ih =>
    intro s hv
    obtain ⟨⟨pn, hpn, hpne⟩, hb⟩ := hv r (List.mem_cons_self r rs)
    obtain ⟨b, hb'⟩ := Option.ne_none_iff_exists'.mp hb
    have hrun : runPicks s (r :: rs) = runPicks (stepPick s r) rs := rfl
    rw [hrun, ih (stepPick s r) (fun r' hr' => hv r' (List.mem_cons_of_mem r hr'))]
    rw [stepPick_picks s r pn b hpn hpne hb']
    rw [List.map_append, List.length_append]
    simp only [List.map_cons, List.map_nil, newPickOf, applyBudget_picks,
      List.length_cons, List.length_nil]
    rw [List.range'_succ]
    simp [List.append_assoc]

theorem deduct_append (n : String) (b : ℚ) (pre : List DraftTeam)
    (t : DraftTeam) (post : List DraftTeam)
    (hpre : ∀ u ∈ pre, u.name ≠ n) (ht : t.name = n) :
    deduct n b (pre ++ t :: post) =
      (pre ++ { t with budget := t.budget - b } :: post, some t) := by
  induction pre with
  | nil => simp [deduct, ht]
  | cons u us ih =>
    rw [List.cons_append, deduct]
    rw [ih (fun u' hu' => hpre u' (List.mem_cons_of_mem u hu'))]
    simp [hpre u (List.mem_cons_self u us)]

theorem transformPicks_round :
    ∀ (ps : List SyncedPick) (start i : ℕ) (tp : TransformedPick),
      (transformPicks ps start)[i]? = some tp → tp.round = (start + i) / 10 + 1 := by
  intro ps
  induction ps with
  | nil => intro start i tp h; simp [transformPicks] at h
  | cons p rest ih =>
    intro start i tp h
    cases i with
    | zero =>
      rw [transformPicks] at h
      rw [List.getElem?_cons_zero] at h
      rw [← Option.some.inj h]
      simp [transformOne]
    | succ j =>
      rw [transformPicks, List.getElem?_cons_succ] at h
      rw [ih (start + 1) j tp h]
      congr 1
      omega

/-! ## Claims about the Draft State Store -/

/-- C1 counterexample: an add-pick request with a negative bid (`-5`)
whose `draftedByTeam` ("Z") matches no configured team does *not* fail:
the PUT handler accepts it and appends the pick to the previously empty
session. -/
theorem addPick_invalid_accepted_cex :
    addPick (some (initDraft [tAc])) rBad =
      Except.ok ({ initDraft [tAc] with picks := [pkBad] }, pkBad) ∧
    (initDraft [tAc]).picks = [] :=
  ⟨rfl, rfl⟩

/-- C1 amended: the PUT handler rejects a request iff `playerName` is
absent or empty or `bidAmount` is absent (the HTTP 400 missing-fields
check); every other request — negative bids and unconfigured
`draftedByTeam` included — succeeds and appends exactly one pick (an
unknown team name merely skips the budget deduction). -/
theorem addPick_error_iff_and_appends :
    ∀ (cur : Option DraftCache) (req : AddPickRequest),
      ((addPick cur req = Except.error ApiError.missingFields) ↔
        (req.playerName = none ∨ req.playerName = some "" ∨ req.bidAmount = none)) ∧
      (∀ s' pk, addPick cur req = Except.ok (s', pk) →
        s'.picks = (cur.getD defaultCache).picks ++ [pk]) := by
  intro cur req
  refine ⟨?_, fun s' pk h => (addPick_ok_inv cur req s' pk h).2⟩
  cases hpn : req.playerName with
  | none => simp [addPick, hpn]
  | some pn =>
    cases hb : req.bidAmount with
    | none => simp [addPick, hpn, hb]
    | some b =>
      rw [addPick, hpn, hb]
      dsimp only
      by_cases he : pn = ""
      · simp [if_pos he, he]
      · simp [if_neg he, he]

/-- Witness for C1 amended: the session produced by the `rBad` request
extends the initial pick list by exactly that pick. -/
theorem addPick_error_iff_and_appends_witness :
    ({ initDraft [tAc] with picks := [pkBad] } : DraftCache).picks =
      ((some (initDraft [tAc])).getD defaultCache).picks ++ [pkBad] :=
  (addPick_error_iff_and_appends (some (initDraft [tAc])) rBad).2
    { initDraft [tAc] with picks := [pkBad] } pkBad rfl

/-- C2 counterexample: initializing a session with 2 teams stores and
reports `totalPicks = 130`, not `2 * 13 = 26` — the POST handler
hardcodes the constant 130 instead of deriving `teams.count *
rosterSize`. -/
theorem totalPicks_hardcoded_cex :
    (getState (some (initDraft [tAc, tBc]))).totalPicks = 130 ∧
    (130 : ℕ) ≠ 2 * 13 := by
  decide

/-- C2 amended: for every team list, initialization stores and getState
reports `totalPicks = 130` (the value `T * rosterSize` only when
`T = 10` teams). -/
theorem totalPicks_always_130 (ts : List DraftTeam) :
    (initDraft ts).totalPicks = 130 ∧
    (getState (some (initDraft ts))).totalPicks = 130 :=
  ⟨rfl, rfl⟩

/-- C4 counterexample: in a session configured with 2 teams and holding
3 picks, getState reports round 1 for the third pick (index 2, pick
number 3), whereas `floor((pickNumber - 1) / teamCount) + 1 =
floor(2 / 2) + 1 = 2`. -/
theorem round_formula_cex :
    ((getState (some (runPicks (initDraft [tAc, tBc])
        [rqA 10, rqB 20, rqA 30]))).picks.map fun t => t.round) = [1, 1, 1] ∧
    (getState (some (runPicks (initDraft [tAc, tBc])
        [rqA 10, rqB 20, rqA 30]))).teams.length = 2 ∧
    (3 - 1) / 2 + 1 = 2 := by
  decide

/-- C4 amended: the round getState reports for the pick at 0-based
array index `i` is `floor(i / 10) + 1`, with the constant divisor 10
regardless of the configured team count (and the pick returned by the
PUT handler itself carries no round field at all). -/
theorem round_tenths_of_index (d : DraftCache) (i : ℕ) (tp : TransformedPick)
    (h : (getState (some d)).picks[i]? = some tp) :
    tp.round = i / 10 + 1 := by
  have h' : (transformPicks d.picks 0)[i]? = some tp := by
    simpa [getState] using h
  simpa using transformPicks_round d.picks 0 i tp h'

/-- Witness for C4 amended at a one-pick session: index 0 reports
round `0 / 10 + 1 = 1`. -/
theorem round_tenths_of_index_witness :
    (transformOne 0 pkBad).round = 0 / 10 + 1 :=
  round_tenths_of_index
    { picks := [pkBad], teams := [], totalPicks := 130, isComplete := false,
      myTeamBudget := 200 }
    0 (transformOne 0 pkBad) rfl

/-- C5: starting from a freshly initialized (empty) session, any
sequence of N well-formed add-pick requests yields pick numbers exactly
1..N in order (so the first pick of an empty session gets pick number
1); moreover every successful add computes the new pick's number as the
current pick count + 1 and only ever appends, leaving existing picks —
and hence their numbers — unchanged. -/
theorem pickNumbers_sequential :
    ∀ (ts : List DraftTeam) (reqs : List AddPickRequest),
      (∀ r ∈ reqs, (∃ pn, r.playerName = some pn ∧ pn ≠ "") ∧ r.bidAmount ≠ none) →
      ((runPicks (initDraft ts) reqs).picks.map fun p => p.pickNumber) =
        List.range' 1 reqs.length ∧
      (∀ (s : DraftCache) (r : AddPickRequest) (s' : DraftCache) (pk : SyncedPick),
        addPick (some s) r = Except.ok (s', pk) →
        pk.pickNumber = s.picks.length + 1 ∧ s'.picks = s.picks ++ [pk]) := by
  intro ts reqs hv
  constructor
  · have := runPicks_pickNumbers reqs (initDraft ts) hv
    simpa [initDraft] using this
  · intro s r s' pk h
    have := addPick_ok_inv (some s) r s' pk h
    simpa using this

/-- Witness for C5: two picks on a fresh two-team session get pick
numbers `[1, 2]`. -/
theorem pickNumbers_sequential_witness :
    ((runPicks (initDraft [tAc, tBc]) [rqA 50, rqB 30]).picks.map
      fun p => p.pickNumber) = List.range' 1 2 :=
  (pickNumbers_sequential [tAc, tBc] [rqA 50, rqB 30]
    (by
      intro r hr
      rcases hr with _ | ⟨_, hr⟩
      · exact ⟨⟨"PA", rfl, by decide⟩, by decide⟩
      · rcases hr with _ | ⟨_, hr⟩
        · exact ⟨⟨"PB", rfl, by decide⟩, by decide⟩
        · cases hr)).1

/-- C9: a pick drafted by a configured team (first match by name)
always succeeds and leaves that team's budget at its old value minus
the bid — the deduction imposes no non-negativity check, so nothing in
the conclusion constrains the sign of the result. -/
theorem applyBid_deducts
    (d : DraftCache) (pre post : List DraftTeam) (t : DraftTeam)
    (r : AddPickRequest) (pn : String) (A : ℚ)
    (hteams : d.teams = pre ++ t :: post)
    (hpre : ∀ u ∈ pre, u.name ≠ t.name)
    (h1 : r.playerName = some pn) (h2 : pn ≠ "")
    (h3 : r.bidAmount = some A)
    (hdbt : r.draftedByTeam = some t.name) (htne : t.name ≠ "") :
    ∃ s' pk, addPick (some d) r = Except.ok (s', pk) ∧
      s'.teams = pre ++ { t with budget := t.budget - A } :: post := by
  refine ⟨_, _, addPick_eq_ok d r pn A h1 h2 h3, ?_⟩
  show (applyBudget d r A).teams = _
  rw [applyBudget]
  have hcond : (jsTruthyStr r.draftedByTeam && !d.teams.isEmpty) = true := by
    rw [hdbt, hteams]
    simp [jsTruthyStr, htne]
  rw [if_pos hcond, hdbt, hteams]
  simp only [Option.getD_some]
  rw [deduct_append t.name A pre t post hpre rfl]

/-- Witness for C9: team "B" with budget 200, bid 35 — the resulting
budget is 165. -/
theorem applyBid_deducts_witness :
    ∃ s' pk,
      addPick (some sesB) (rqB 35) = Except.ok (s', pk) ∧
      s'.teams = [{ name := "B", budget := (165 : ℚ), isMyTeam := false }] := by
  obtain ⟨s', pk, hok, hteams⟩ :=
    applyBid_deducts sesB [] [] tBc (rqB 35) "PB" 35 rfl (by simp) rfl
      (by decide) rfl rfl (by decide)
  refine ⟨s', pk, hok, ?_⟩
  rw [hteams]
  norm_num [tBc]

/-! ### Budget-invariant helper lemmas -/

theorem filter_my_eq_singleton {ts : List DraftTeam} {myName : String} {mb : ℚ}
    (h : (ts.filter fun t => t.isMyTeam).map (fun t => (t.name, t.budget)) =
      [(myName, mb)]) :
    ∃ tm ∈ ts, tm.isMyTeam = true ∧ tm.name = myName := by
  cases hf : ts.filter (fun t => t.isMyTeam) with
  | nil => rw [hf] at h; cases h
  | cons a l =>
    rw [hf] at h
    simp only [List.map_cons, List.cons.injEq, Prod.mk.injEq] at h
    have hmem : a ∈ ts.filter (fun t => t.isMyTeam) := hf ▸ List.mem_cons_self a l
    exact ⟨a, List.mem_of_mem_filter hmem, List.of_mem_filter hmem, h.1.1⟩

theorem deduct_step_nomy :
    ∀ (ts : List DraftTeam) (n : String) (b : ℚ),
      n ∈ ts.map (fun t => t.name) →
      ts.filter (fun t => t.isMyTeam) = [] →
      ∃ ts' t, deduct n b ts = (ts', some t) ∧ t.name = n ∧
        ts'.map (fun t => t.name) = ts.map (fun t => t.name) ∧
        ts'.filter (fun t => t.isMyTeam) = [] ∧
        t.isMyTeam = false := by
  intro ts
  induction ts with
  | nil => intro n b hn _; simp at hn
  | cons u us ih =>
    intro n b hn hf
    have hu : u.isMyTeam = false := by
      cases hcase : u.isMyTeam with
      | false => rfl
      | true =>
        rw [List.filter_cons] at hf
        simp [hcase] at hf
    rw [List.filter_cons] at hf
    rw [hu] at hf
    simp only [Bool.false_eq_true, if_false] at hf
    by_cases hun : u.name = n
    · refine ⟨{ u with budget := u.budget - b } :: us, u, ?_, hun, ?_, ?_, hu⟩
      · rw [deduct, if_pos hun]
      · simp
      · rw [List.filter_cons]
        simp [hu, hf]
    · have hn' : n ∈ us.map (fun t => t.name) := by
        rw [List.map_cons, List.mem_cons] at hn
        rcases hn with hc | hc
        · exact absurd hc.symm hun
        · exact hc
      obtain ⟨ts'', t, hd, htn, hnames, hfil, htm⟩ := ih n b hn' hf
      refine ⟨u :: ts'', t, ?_, htn, ?_, ?_, htm⟩
      · rw [deduct, if_neg hun]
        simp [hd]
      · simp [hnames]
      · rw [List.filter_cons]
        simp [hu, hfil]

theorem deduct_step :
    ∀ (ts : List DraftTeam) (n myName : String) (b mb : ℚ),
      ((ts.map fun t => t.name).Nodup) →
      n ∈ ts.map (fun t => t.name) →
      ((ts.filter fun t => t.isMyTeam).map fun t => (t.name, t.budget)) =
        [(myName, mb)] →
      ∃ ts' t, deduct n b ts = (ts', some t) ∧ t.name = n ∧
        (ts'.map fun t => t.name) = ts.map (fun t => t.name) ∧
        ((ts'.filter fun t => t.isMyTeam).map fun t => (t.name, t.budget)) =
          [(myName, if n = myName then mb - b else mb)] ∧
        (t.isMyTeam = true ↔ n = myName) := by
  intro ts
  induction ts with
  | nil => intro n myName b mb _ hn _; simp at hn
  | cons u us ih =>
    intro n myName b mb hnd hn hf
    rw [List.map_cons, List.nodup_cons] at hnd
    obtain ⟨hnodup_u, hnd'⟩ := hnd
    cases hmy : u.isMyTeam with
    | true =>
      rw [List.filter_cons] at hf
      rw [hmy] at hf
      simp only [if_true, List.map_cons, List.cons.injEq, Prod.mk.injEq] at hf
      obtain ⟨⟨hname, hbud⟩, hrest⟩ := hf
      have hfilus : us.filter (fun t => t.isMyTeam) = [] := by
        cases hcase : us.filter (fun t => t.isMyTeam) with
        | nil => rfl
        | cons a l => rw [hcase] at hrest; cases hrest
      by_cases hun : u.name = n
      · have hnm : n = myName := by rw [← hun, hname]
        refine ⟨{ u with budget := u.budget - b } :: us, u, ?_, hun, ?_, ?_, ?_⟩
        · rw [deduct, if_pos hun]
        · simp
        · rw [List.filter_cons]
          simp only [hmy, if_true, List.map_cons, hfilus, List.map_nil]
          simp [hname, hbud, hnm]
        · simp [hmy, hnm]
      · have hn' : n ∈ us.map (fun t => t.name) := by
          rw [List.map_cons, List.mem_cons] at hn
          rcases hn with hc | hc
          · exact absurd hc.symm hun
          · exact hc
        have hnm : ¬ (n = myName) := by
          intro hc
          rw [← hname] at hc
          exact hun hc.symm
        obtain ⟨ts'', t, hd, htn, hnames, hfil, htm⟩ := deduct_step_nomy us n b hn' hfilus
        refine ⟨u :: ts'', t, ?_, htn, ?_, ?_, ?_⟩
        · rw [deduct, if_neg hun]
          simp [hd]
        · simp [hnames]
        · rw [List.filter_cons]
          simp only [hmy, if_true, List.map_cons, hfil, List.map_nil]
          simp [hname, hbud, hnm]
        · simp [htm, hnm]
    | false =>
      rw [List.filter_cons] at hf
      rw [hmy] at hf
      simp only [Bool.false_eq_true, if_false] at hf
      by_cases hun : u.name = n
      · obtain ⟨tm, htm_mem, htm_my, htm_name⟩ := filter_my_eq_singleton hf
        have hmyin : myName ∈ us.map (fun t => t.name) :=
          htm_name ▸ List.mem_map_of_mem _ htm_mem
        have hne : ¬ (n = myName) := by
          intro hc
          exact hnodup_u (by rw [hun, hc]; exact hmyin)
        refine ⟨{ u with budget := u.budget - b } :: us, u, ?_, hun, ?_, ?_, ?_⟩
        · rw [deduct, if_pos hun]
        · simp
        · rw [List.filter_cons]
          simp only [hmy, Bool.false_eq_true, if_false]
          simp [hf, hne]
        · simp [hmy, hne]
      · have hn' : n ∈ us.map (fun t => t.name) := by
          rw [List.map_cons, List.mem_cons] at hn
          rcases hn with hc | hc
          · exact absurd hc.symm hun
          · exact hc
        obtain ⟨ts'', t, hd, htn, hnames, hfil, htiff⟩ :=
          ih n myName b mb hnd' hn' hf
        refine ⟨u :: ts'', t, ?_, htn, ?_, ?_, htiff⟩
        · rw [deduct, if_neg hun]
          simp [hd]
        · simp [hnames]
        · rw [List.filter_cons]
          simp only [hmy, Bool.false_eq_true, if_false]
          exact hfil

theorem sumBids_append (ps : List SyncedPick) (p : SyncedPick) (n : String) :
    sumBids (ps ++ [p]) n =
      sumBids ps n + (if p.draftedByTeam = some n then p.bidAmount else 0) := by
  rw [sumBids, sumBids, List.filter_append]
  by_cases h : p.draftedByTeam = some n <;> simp [h, List.filter_cons]

theorem filter_map_initTeam (ts : List DraftTeam) :
    (ts.map initTeam).filter (fun t => t.isMyTeam) =
      (ts.filter fun t => t.isMyTeam).map initTeam := by
  induction ts with
  | nil => rfl
  | cons u us ih =>
    rw [List.map_cons, List.filter_cons, List.filter_cons]
    cases hu : u.isMyTeam
    · simp [initTeam, hu, ih]
    · simp [initTeam, hu, ih]

theorem runPicks_myteam (reqs : List AddPickRequest) :
    ∀ (s : DraftCache) (myName : String),
      ((s.teams.map fun t => t.name).Nodup) →
      ((s.teams.filter fun t => t.isMyTeam).map fun t => (t.name, t.budget)) =
        [(myName, s.myTeamBudget)] →
      s.myTeamBudget = 200 - sumBids s.picks myName →
      (∀ r ∈ reqs,
        (∃ pn, r.playerName = some pn ∧ pn ≠ "") ∧
        r.bidAmount ≠ none ∧
        (∃ n, r.draftedByTeam = some n ∧ n ≠ "" ∧
          n ∈ s.teams.map fun t => t.name)) →
      ((runPicks s reqs).teams.map fun t => t.name) =
        s.teams.map (fun t => t.name) ∧
      (((runPicks s reqs).teams.filter fun t => t.isMyTeam).map
        fun t => (t.name, t.budget)) =
        [(myName, (runPicks s reqs).myTeamBudget)] ∧
      (runPicks s reqs).myTeamBudget =
        200 - sumBids (runPicks s reqs).picks myName := by
  induction reqs with
  | nil => intro s myName _ hf hbud _; exact ⟨rfl, hf, hbud⟩
  | cons r rs ih =>
    intro s myName hnd hf hbud hv
    obtain ⟨⟨pn, hpn, hpne⟩, hb, n, hdbt, hnne, hnmem⟩ :=
      hv r (List.mem_cons_self r rs)
    obtain ⟨b, hb'⟩ := Option.ne_none_iff_exists'.mp hb
    obtain ⟨ts', t, hd, htn, hnames, hfil, htiff⟩ :=
      deduct_step s.teams n myName b s.myTeamBudget hnd hnmem hf
    have hteams_ne : s.teams ≠ [] := by
      intro hc
      rw [hc] at hnmem
      simp at hnmem
    have hcond : (jsTruthyStr r.draftedByTeam && !s.teams.isEmpty) = true := by
      rw [hdbt]
      simp [jsTruthyStr, hnne, hteams_ne]
    have happ : applyBudget s r b =
        { s with
            teams := ts'
            myTeamBudget :=
              if t.isMyTeam then s.myTeamBudget - b else s.myTeamBudget } := by
      rw [applyBudget, if_pos hcond, hdbt]
      simp only [Option.getD_some]
      rw [hd]
    have hstep : stepPick s r =
        { applyBudget s r b with
            picks := s.picks ++ [newPickOf (applyBudget s r b) r pn b] } := by
      rw [stepPick, addPick_eq_ok s r pn b hpn hpne hb']
    have hs1_teams : (stepPick s r).teams = ts' := by rw [hstep, happ]
    have hs1_mtb : (stepPick s r).myTeamBudget =
        if t.isMyTeam then s.myTeamBudget - b else s.myTeamBudget := by
      rw [hstep, happ]
    have hs1_picks : (stepPick s r).picks =
        s.picks ++ [newPickOf (applyBudget s r b) r pn b] := by
      rw [hstep]
    have hnp_dbt : (newPickOf (applyBudget s r b) r pn b).draftedByTeam = some n := by
      rw [newPickOf]
      rw [hdbt]
      simp [jsTruthyStr, hnne]
    have hnp_bid : (newPickOf (applyBudget s r b) r pn b).bidAmount = b := rfl
    have hnd1 : ((stepPick s r).teams.map fun t => t.name).Nodup := by
      rw [hs1_teams, hnames]
      exact hnd
    have htfalse : ¬ (n = myName) → t.isMyTeam = false := by
      intro hnm
      cases hcase : t.isMyTeam
      · rfl
      · exact absurd (htiff.mp hcase) hnm
    have hf1 : (((stepPick s r).teams.filter fun t => t.isMyTeam).map
        fun t => (t.name, t.budget)) = [(myName, (stepPick s r).myTeamBudget)] := by
      rw [hs1_teams, hfil, hs1_mtb]
      by_cases hnm : n = myName
      · rw [if_pos hnm, if_pos (htiff.mpr hnm)]
      · rw [if_neg hnm, htfalse hnm]
        simp
    have hbud1 : (stepPick s r).myTeamBudget =
        200 - sumBids (stepPick s r).picks myName := by
      rw [hs1_mtb, hs1_picks, sumBids_append, hnp_dbt, hnp_bid]
      by_cases hnm : n = myName
      · rw [if_pos (htiff.mpr hnm), if_pos (by rw [hnm]), hbud]
        ring
      · rw [htfalse hnm]
        simp only [Bool.false_eq_true, if_false]
        rw [if_neg (fun hc => hnm (Option.some.inj hc)), hbud]
        ring
    have hv1 : ∀ r' ∈ rs,
        (∃ pn, r'.playerName = some pn ∧ pn ≠ "") ∧
        r'.bidAmount ≠ none ∧
        (∃ n', r'.draftedByTeam = some n' ∧ n' ≠ "" ∧
          n' ∈ (stepPick s r).teams.map fun t => t.name) := by
      intro r' hr'
      obtain ⟨h1, h2, n', h3, h4, h5⟩ := hv r' (List.mem_cons_of_mem r hr')
      refine ⟨h1, h2, n', h3, h4, ?_⟩
      rw [hs1_teams, hnames]
      exact h5
    have hrun : runPicks s (r :: rs) = runPicks (stepPick s r) rs := rfl
    rw [hrun]
    obtain ⟨ha, hfr, hbr⟩ := ih (stepPick s r) myName hnd1 hf1 hbud1 hv1
    refine ⟨?_, hfr, hbr⟩
    rw [ha, hs1_teams, hnames]

/-- C10: after initializing a team list with distinct nonempty names in
which the (unique) isMyTeam team's budget is 200, every sequence of
well-formed add-pick requests whose draftedByTeam each names a
configured team leaves the stored myTeamBudget field equal to the
isMyTeam team's budget field, and both equal 200 minus the sum of the
bid amounts of the picks drafted by that team. -/
theorem myTeamBudget_invariant :
    ∀ (ts : List DraftTeam) (reqs : List AddPickRequest) (myName : String),
      ((ts.map fun t => t.name).Nodup) →
      (∀ t ∈ ts, t.name ≠ "") →
      ((ts.filter fun t => t.isMyTeam).map fun t => (t.name, t.budget)) =
        [(myName, (200 : ℚ))] →
      (∀ r ∈ reqs,
        (∃ pn, r.playerName = some pn ∧ pn ≠ "") ∧
        r.bidAmount ≠ none ∧
        (∃ n, r.draftedByTeam = some n ∧ n ∈ ts.map fun t => t.name)) →
      (((runPicks (initDraft ts) reqs).teams.filter fun t => t.isMyTeam).map
        fun t => (t.name, t.budget)) =
        [(myName, (runPicks (initDraft ts) reqs).myTeamBudget)] ∧
      (runPicks (initDraft ts) reqs).myTeamBudget =
        200 - sumBids (runPicks (initDraft ts) reqs).picks myName := by
  intro ts reqs myName hnd hne hf hv
  have hnames0 : (initDraft ts).teams.map (fun t => t.name) =
      ts.map fun t => t.name := by
    show (ts.map initTeam).map (fun t => t.name) = ts.map fun t => t.name
    rw [List.map_map]
    rfl
  have hnd0 : ((initDraft ts).teams.map fun t => t.name).Nodup := by
    rw [hnames0]
    exact hnd
  have hfilm : (initDraft ts).teams.filter (fun t => t.isMyTeam) =
      (ts.filter fun t => t.isMyTeam).map initTeam := filter_map_initTeam ts
  cases hft : ts.filter (fun t => t.isMyTeam) with
  | nil => rw [hft] at hf; cases hf
  | cons a l =>
    rw [hft] at hf
    simp only [List.map_cons, List.cons.injEq, Prod.mk.injEq] at hf
    obtain ⟨⟨hname, hbud⟩, hrest⟩ := hf
    have hl : l = [] := by
      cases l with
      | nil => rfl
      | cons a' l' => rw [List.map_cons] at hrest; cases hrest
    subst hl
    have hf0 : (((initDraft ts).teams.filter fun t => t.isMyTeam).map
        fun t => (t.name, t.budget)) = [(myName, (initDraft ts).myTeamBudget)] := by
      rw [hfilm, hft]
      simp only [List.map_cons, List.map_nil, initTeam, initDraft]
      rw [hname, hbud]
      norm_num
    have hbud0 : (initDraft ts).myTeamBudget =
        200 - sumBids (initDraft ts).picks myName := by
      simp [initDraft, sumBids]
    have hv0 : ∀ r ∈ reqs,
        (∃ pn, r.playerName = some pn ∧ pn ≠ "") ∧
        r.bidAmount ≠ none ∧
        (∃ n, r.draftedByTeam = some n ∧ n ≠ "" ∧
          n ∈ (initDraft ts).teams.map fun t => t.name) := by
      intro r hr
      obtain ⟨h1, h2, n, h3, h4⟩ := hv r hr
      refine ⟨h1, h2, n, h3, ?_, ?_⟩
      · obtain ⟨t, htmem, htn⟩ := List.mem_map.mp h4
        intro hc
        exact hne t htmem (by rw [htn, hc])
      · rw [hnames0]
        exact h4
    obtain ⟨_, hres1, hres2⟩ :=
      runPicks_myteam reqs (initDraft ts) myName hnd0 hf0 hbud0 hv0
    exact ⟨hres1, hres2⟩

/-- Witness for C10: teams A (mine, 200) and B, picks of 50 by A and
30 by B. -/
theorem myTeamBudget_invariant_witness :
    (((runPicks (initDraft [tAc, tBc]) [rqA 50, rqB 30]).teams.filter
      fun t => t.isMyTeam).map fun t => (t.name, t.budget)) =
      [("A", (runPicks (initDraft [tAc, tBc]) [rqA 50, rqB 30]).myTeamBudget)] ∧
    (runPicks (initDraft [tAc, tBc]) [rqA 50, rqB 30]).myTeamBudget =
      200 - sumBids (runPicks (initDraft [tAc, tBc]) [rqA 50, rqB 30]).picks "A" :=
  myTeamBudget_invariant [tAc, tBc] [rqA 50, rqB 30] "A" (by decide) (by decide)
    (by decide)
    (by
      intro r hr
      rcases hr with _ | ⟨_, hr⟩
      · exact ⟨⟨"PA", rfl, by decide⟩, by decide, "A", rfl, by decide⟩
      · rcases hr with _ | ⟨_, hr⟩
        · exact ⟨⟨"PB", rfl, by decide⟩, by decide, "B", rfl, by decide⟩
        · cases hr)

end DraftMachine
